import Mathlib

/-!
Verification of the next-hook-form-example repository.

The development shallowly embeds the three code units the claims are about:

* `src/schema/formSchema.ts` — the yup validation schema (six fields, declared
  in the order fullName, email, phone, password, favTeams, acceptTerms);
* `src/hooks/useForm.tsx` — the form-controller hook (form state, error state,
  `handleInputChange`, `validateForm`, `getFormData`, `resetForm`);
* `src/pages/api/form.ts` — the submission handler (parse JSON, re-validate,
  echo on success, 500 on a thrown `Error`).

JavaScript objects whose value identity matters are modelled as association
lists with JS spread-update semantics; where reference identity matters
(`getFormData`) a tiny heap of addresses is used.  Machine-level details of
the yup rule engine (its email regex and the yup-password strength rules) are
vast third-party regexes; they are embedded as concrete decidable predicates
that keep the structure of the rules (the exact regexes do not influence any
claim, which only ever needs some concrete accepted or rejected value).
-/

namespace NextHookForm

/-! ## Candidate payloads

A JSON object payload as the form produces it: each schema field is either
absent (`none`, a missing key) or present with the value shape the form
submits (strings for the four text inputs, a string array for `favTeams`,
a boolean for `acceptTerms`). -/

/-- A candidate payload for the schema: the JSON object the client posts.
`none` models a missing key. -/
structure Payload where
  fullName : Option String
  email : Option String
  phone : Option String
  password : Option String
  favTeams : Option (List String)
  acceptTerms : Option Bool
deriving DecidableEq, Repr

/-- The payload with every field missing (the empty JSON object). -/
def emptyPayload : Payload := ⟨none, none, none, none, none, none⟩

/-! ## The yup schema, from `src/schema/formSchema.ts`

Each field check returns the list of violations yup records for that field
when `validate` runs with `abortEarly: false`.  An element of the list is a
path/message pair, mirroring `ValidationError.inner` entries. -/

/-- One entry of `ValidationError.inner`: the offending path and its
message. -/
structure Err where
  path : String
  mess : String
deriving DecidableEq, Repr

/-- Whitespace characters, modelling the regex class `\s`. -/
def isWS (c : Char) : Bool :=
  c = ' ' || c = '\t' || c = '\n' || c = '\x0d' || c = '\x0b' || c = '\x0c'

/-- Separator class `[\s.-]` of the phone regex. -/
def isPhoneSep (c : Char) : Bool :=
  isWS c || c = '.' || c = '-'

/-- Consume exactly `n` decimal digits from the front of a character list. -/
def takeDigits : Nat → List Char → Option (List Char)
  | 0, cs => some cs
  | n + 1, c :: cs => if c.isDigit then takeDigits n cs else none
  | _ + 1, [] => none

/-- Tail of the phone regex after the optional country prefix:
`\(?\d{3}\)?[\s.-]\d{3}[\s.-]\d{4}$`. -/
def phoneMain (cs : List Char) : Bool :=
  let cs₁ := match cs with
    | '(' :: r => r
    | r => r
  match takeDigits 3 cs₁ with
  | none => false
  | some cs₂ =>
    let cs₃ := match cs₂ with
      | ')' :: r => r
      | r => r
    match cs₃ with
    | s₁ :: cs₄ =>
      if isPhoneSep s₁ then
        match takeDigits 3 cs₄ with
        | none => false
        | some cs₅ =>
          match cs₅ with
          | s₂ :: cs₆ =>
            if isPhoneSep s₂ then
              match takeDigits 4 cs₆ with
              | some [] => true
              | _ => false
            else false
          | [] => false
      else false
    | [] => false

/-- The phone regex `^(\+0?1\s)?\(?\d{3}\)?[\s.-]\d{3}[\s.-]\d{4}$` from
`formSchema.ts`.  The optional group is `+1` or `+01` followed by one
whitespace character. -/
def phoneOk (s : String) : Bool :=
  match s.toList with
  | '+' :: '0' :: '1' :: w :: r => isWS w && phoneMain r
  | '+' :: '1' :: w :: r => isWS w && phoneMain r
  | cs => phoneMain cs

/-- Email check, modelling yup's `.email()` rule (the full RFC-flavoured
regex is abbreviated to its skeleton: a nonempty local part without `@`,
one `@`, and a nonempty domain containing a dot and no `@`).  No claim
depends on the fine structure of the rule, only on concrete accepted and
rejected values. -/
def emailOk (s : String) : Bool :=
  let cs := s.toList
  match cs.splitOn '@' with
  | [loc, dom] =>
    !loc.isEmpty && !dom.isEmpty && dom.contains '.' &&
      dom.head? ≠ some '.' && dom.getLast? ≠ some '.'
  | _ => false

/-- Symbol class of the yup-password strength rules: anything that is not
alphanumeric and not whitespace. -/
def isSymbolChar (c : Char) : Bool :=
  !c.isAlphanum && !isWS c

/-- Password strength, modelling `yup-password`'s `.password()` composite:
at least 8 characters, and at least one lowercase letter, one uppercase
letter, one digit and one symbol. -/
def passwordOk (s : String) : Bool :=
  let cs := s.toList
  decide (8 ≤ cs.length) && cs.any Char.isLower && cs.any Char.isUpper &&
    cs.any Char.isDigit && cs.any isSymbolChar

/-- `Object.keys(E_FavTeams)` from `src/interfaces/FormData.ts`: the
enumerated team keys the `oneOf` rule accepts. -/
def teams : List String :=
  ["arsenal", "astonVilla", "brentford", "brighton", "burnley", "chelsea",
   "crystalPalace", "everton", "fulham", "leedsUnited", "leicesterCity",
   "liverpool"]

/-- Violations of the `fullName` rule
`yup.string().nullable().label('Full Name').required().min(3).max(40)`. -/
def fullNameErrors : Option String → List Err
  | none => [⟨"fullName", "Full Name is a required field"⟩]
  | some s =>
    (if s = "" then [(⟨"fullName", "Full Name is a required field"⟩ : Err)] else []) ++
    (if s.length < 3 then [(⟨"fullName", "Full Name must be at least 3 characters"⟩ : Err)] else []) ++
    (if 40 < s.length then [(⟨"fullName", "Full Name must be at most 40 characters"⟩ : Err)] else [])

/-- Violations of the `email` rule
`yup.string().nullable().label('Email Address').required().email('Invalid Email Address')`. -/
def emailErrors : Option String → List Err
  | none => [⟨"email", "Email Address is a required field"⟩]
  | some s =>
    (if s = "" then [(⟨"email", "Email Address is a required field"⟩ : Err)] else []) ++
    (if !emailOk s then [(⟨"email", "Invalid Email Address"⟩ : Err)] else [])

/-- Violations of the `phone` rule
`yup.string().nullable().label('Mobile Phone').required().matches(phoneRegExp, 'Invalid Phone Number')`. -/
def phoneErrors : Option String → List Err
  | none => [⟨"phone", "Mobile Phone is a required field"⟩]
  | some s =>
    (if s = "" then [(⟨"phone", "Mobile Phone is a required field"⟩ : Err)] else []) ++
    (if !phoneOk s then [(⟨"phone", "Invalid Phone Number"⟩ : Err)] else [])

/-- Violations of the `password` rule
`yup.string().label('Password').password().required()`. -/
def passwordErrors : Option String → List Err
  | none => [⟨"password", "Password is a required field"⟩]
  | some s =>
    (if s = "" then [(⟨"password", "Password is a required field"⟩ : Err)] else []) ++
    (if !passwordOk s then [(⟨"password", "Password must satisfy the strength rules"⟩ : Err)] else [])

/-- Path of the element error yup reports for index `i` of the `favTeams`
array: `favTeams[i]`. -/
def eltPath (i : Nat) : String :=
  "favTeams[" ++ toString i ++ "]"

/-- Element violations of the `of(yup.string().oneOf(favTeams, 'Invalid team selected'))`
inner rule, indexed from `i`. -/
def eltErrors : Nat → List String → List Err
  | _, [] => []
  | i, x :: xs =>
    (if teams.contains x then [] else [(⟨eltPath i, "Invalid team selected"⟩ : Err)]) ++
    eltErrors (i + 1) xs

/-- Violations of the `favTeams` rule
`yup.array().label('Favorite Teams').required().min(1).max(3).of(yup.string().oneOf(favTeams, 'Invalid team selected'))`. -/
def favTeamsErrors : Option (List String) → List Err
  | none => [⟨"favTeams", "Favorite Teams is a required field"⟩]
  | some l =>
    (if l.length < 1 then [(⟨"favTeams", "Favorite Teams field must have at least 1 items"⟩ : Err)] else []) ++
    (if 3 < l.length then [(⟨"favTeams", "Favorite Teams field must have less than or equal to 3 items"⟩ : Err)] else []) ++
    eltErrors 0 l

/-- Violations of the `acceptTerms` rule
`yup.boolean().label('Accept Terms').required().oneOf([true], '...')`; a
present `false` passes `required` but fails the `oneOf([true])` test. -/
def acceptTermsErrors : Option Bool → List Err
  | none => [⟨"acceptTerms", "Accept Terms is a required field"⟩]
  | some b =>
    if b then [] else [⟨"acceptTerms", "You must accept the terms and conditions"⟩]

/-- `ValidationError.inner` of `formSchema.validate(payload, { abortEarly: false })`:
all violations, sorted by the schema's declared field order (yup's
`sortByKeyOrder` on the object shape declaration
`[fullName, email, phone, password, favTeams, acceptTerms]`).  The empty
list means the payload is valid. -/
def schemaInner (p : Payload) : List Err :=
  fullNameErrors p.fullName ++ emailErrors p.email ++ phoneErrors p.phone ++
    passwordErrors p.password ++ favTeamsErrors p.favTeams ++
    acceptTermsErrors p.acceptTerms

/-! ## JS object maps

`formData` and `errors` in `useForm.tsx` are plain JS objects used as
string-keyed maps.  They are modelled as association lists; the spread
update `\x7b ...prev, [name]: value \x7d` keeps an existing key in place with the
new value and appends a fresh key at the end, exactly as JS insertion
order does. -/

/-- A field value held in `formData` (the hook types it as `any`; the demo
stores strings from text inputs, a string array and a boolean). -/
inductive FieldVal where
  | str (s : String)
  | boolv (b : Bool)
  | arr (l : List String)
deriving DecidableEq, Repr

/-- JS spread update `\x7b ...m, [k]: v \x7d`: replace the value at the first
occurrence of `k`, or append `(k, v)` when `k` is absent. -/
def setKey {α : Type} : List (String × α) → String → α → List (String × α)
  | [], k, v => [(k, v)]
  | (k₀, v₀) :: rest, k, v =>
    if k₀ = k then (k₀, v) :: rest else (k₀, v₀) :: setKey rest k v

/-- Key list of a JS object map (`Object.keys`). -/
def keysOf {α : Type} (m : List (String × α)) : List String :=
  m.map Prod.fst

/-- The `initialErrors` object built by the hook: every key of
`initialFormData` mapped to the empty string. -/
def initErrorsOf {α : Type} (init : List (String × α)) : List (String × String) :=
  init.map fun p => (p.1, "")

/-- A map is all-blank when every value is the empty string. -/
def allBlank (m : List (String × String)) : Prop :=
  ∀ p ∈ m, p.2 = ""

instance (m : List (String × String)) : Decidable (allBlank m) := by
  unfold allBlank; infer_instance

/-- Keys of the entries holding a non-empty message. -/
def nonBlankKeys (m : List (String × String)) : List String :=
  (m.filter fun p => p.2 ≠ "").map Prod.fst

/-! ## The form-controller hook, from `src/hooks/useForm.tsx` -/

/-- The state the hook owns: the `formData` and `errors` `useState` cells. -/
structure HookState where
  formData : List (String × FieldVal)
  errors : List (String × String)
deriving DecidableEq, Repr

/-- State right after `useForm` runs: `formData = initialFormData` and
`errors = initialErrors`. -/
def initHookState (init : List (String × FieldVal)) : HookState :=
  ⟨init, initErrorsOf init⟩

/-- `handleInputChange`: `setFormData(prev => (\x7b ...prev, [name]: value \x7d))`
with `name` and `value` read from the input event. -/
def handleInputChange (s : HookState) (name value : String) : HookState :=
  { s with formData := setKey s.formData name (FieldVal.str value) }

/-- A sequence of `handleInputChange` calls applied in order. -/
def applyChanges (s : HookState) : List (String × String) → HookState
  | [] => s
  | (n, v) :: rest => applyChanges (handleInputChange s n v) rest

/-- `resetForm`: `setFormData(initialFormData); setErrors(initialErrors)`. -/
def resetForm (init : List (String × FieldVal)) (_s : HookState) : HookState :=
  ⟨init, initErrorsOf init⟩

/-- `validateForm` run against a candidate payload, given the hook's
`initialErrors` object.  The function first resets `errors` to
`initialErrors`; on a `ValidationError` it takes the first inner violation
(`err.inner[0].path`, `err.errors[0]`) and merges it into the just-reset
errors object, returning `false`; with no violation it returns `true`.
The result is the returned boolean together with the final `errors`
object. -/
def validateForm (initErrs : List (String × String)) (p : Payload) :
    Bool × List (String × String) :=
  match schemaInner p with
  | [] => (true, initErrs)
  | e :: _ => (false, setKey initErrs e.path e.mess)

/-- A JS value thrown by library code: either an `Error` instance carrying
a message, or any non-`Error` value (a thrown string or object). -/
inductive Thrown where
  | errObj (message : String)
  | nonError
deriving DecidableEq, Repr

/-- `validateForm` with the schema call's fault channel made explicit: when
`fault` is `some t` the `schema.validate` call throws `t` (a
non-`ValidationError`) instead of validating.  The `catch` block in
`validateForm` catches every thrown value; only `ValidationError`s update
the errors object, and the function returns `false` in all caught cases,
so the result is always `Except.ok`. -/
def validateFormE (fault : Option Thrown) (initErrs : List (String × String))
    (p : Payload) : Except Thrown (Bool × List (String × String)) :=
  match fault with
  | some _ => Except.ok (false, initErrs)
  | none => Except.ok (validateForm initErrs p)

/-! ## Reference semantics of `getFormData`, from `useForm.tsx`

JS objects are heap references; the `formData` state cell holds a
reference.  `getFormData()\x7b return formData; \x7d` returns that same
reference, so the model gives the controller an address into a heap of
form-data objects and `getFormData` returns the address unchanged. -/

/-- A heap of JS form-data objects, addressed by `Nat`. -/
def Heap : Type := Nat → List (String × FieldVal)

/-- The controller's view: the address its `formData` cell refers to. -/
structure CtrlState where
  fdAddr : Nat
deriving DecidableEq, Repr

/-- `getFormData`: returns the reference held in the `formData` cell. -/
def getFormData (s : CtrlState) : Nat :=
  s.fdAddr

/-- The controller's current form data: the heap object its cell refers
to. -/
def ctrlFormData (h : Heap) (s : CtrlState) : List (String × FieldVal) :=
  h s.fdAddr

/-- A caller mutating the object at address `a` (e.g. assigning to a
property of the value `getFormData` returned). -/
def heapWrite (h : Heap) (a : Nat) (v : List (String × FieldVal)) : Heap :=
  fun x => if x = a then v else h x

/-! ## The submission handler, from `src/pages/api/form.ts` -/

/-- An HTTP response: status code and body text. -/
structure Resp where
  status : Nat
  body : String
deriving DecidableEq, Repr

/-- JSON string literal (the messages and paths involved contain no
characters needing escapes). -/
def jsonStr (s : String) : String :=
  "\"" ++ s ++ "\""

/-- `JSON.stringify(\x7b errField, errMess \x7d)`: the body the handler builds for
a validation failure. -/
def stringifyErr (field mess : String) : String :=
  "\x7b\"errField\":" ++ jsonStr field ++ ",\"errMess\":" ++ jsonStr mess ++ "\x7d"

/-- One serialized member of the echoed payload object. -/
def memberStr (key : String) (val : String) : String :=
  jsonStr key ++ ":" ++ val

/-- `JSON.stringify` of a payload: the present fields, serialized as the
JSON object the handler echoes back. -/
def stringifyPayload (p : Payload) : String :=
  let fields :=
    (match p.fullName with | some s => [memberStr "fullName" (jsonStr s)] | none => []) ++
    (match p.email with | some s => [memberStr "email" (jsonStr s)] | none => []) ++
    (match p.phone with | some s => [memberStr "phone" (jsonStr s)] | none => []) ++
    (match p.password with | some s => [memberStr "password" (jsonStr s)] | none => []) ++
    (match p.favTeams with
      | some l => [memberStr "favTeams" ("[" ++ String.intercalate "," (l.map jsonStr) ++ "]")]
      | none => []) ++
    (match p.acceptTerms with
      | some b => [memberStr "acceptTerms" (if b then "true" else "false")]
      | none => [])
  "\x7b" ++ String.intercalate "," fields ++ "\x7d"

/-- Input of one handler run, with its fault channels explicit: `parse` is
the outcome of `await request.json()` (a payload, or the value it threw on
malformed JSON), and `schemaFault`, when `some t`, makes the
`formSchema.validate` call throw `t` (a non-`ValidationError`) instead of
validating. -/
structure HandlerInput where
  parse : Except Thrown Payload
  schemaFault : Option Thrown
deriving Repr

/-- The outer `catch` of the handler: a thrown `Error` becomes a 500
response carrying `err.message`; any non-`Error` value falls through the
`instanceof` guard and the function returns `undefined` (`none`). -/
def outerCatch : Thrown → Option Resp
  | Thrown.errObj m => some ⟨500, m⟩
  | Thrown.nonError => none

/-- The handler of `src/pages/api/form.ts`.  Parse failures propagate to
the outer catch.  A `ValidationError` from the schema is re-thrown by the
inner catch as `new Error(JSON.stringify(\x7b errField, errMess \x7d))` and lands
in the outer catch as a 500.  Any other value thrown by the schema call is
swallowed by the inner catch (its `instanceof Yup.ValidationError` guard
has no else branch), and execution falls through to the 200 echo. -/
def handler (i : HandlerInput) : Option Resp :=
  match i.parse with
  | Except.error t => outerCatch t
  | Except.ok p =>
    match i.schemaFault with
    | some _ => some ⟨200, stringifyPayload p⟩
    | none =>
      match schemaInner p with
      | [] => some ⟨200, stringifyPayload p⟩
      | e :: _ => outerCatch (Thrown.errObj (stringifyErr e.path e.mess))

/-- Substring test used to state that a response body mentions a field
name. -/
def listBeginsWith : List Char → List Char → Bool
  | _, [] => true
  | [], _ :: _ => false
  | a :: as, b :: bs => a = b && listBeginsWith as bs

/-- Substring occurrence on character lists. -/
def listHasSub : List Char → List Char → Bool
  | [], needle => needle.isEmpty
  | h :: t, needle => listBeginsWith (h :: t) needle || listHasSub t needle

/-- `hay` contains `needle` as a contiguous substring. -/
def strHasSub (hay needle : String) : Bool :=
  listHasSub hay.toList needle.toList

/-- Value stored under key `k` (first occurrence wins, as in a JS object). -/
def getVal : List (String × String) → String → Option String
  | [], _ => none
  | (k₀, v₀) :: rest, k => if k₀ = k then some v₀ else getVal rest k

/-! ## Concrete fixtures -/

/-- The `initialFormData` object of `src/pages/index.tsx` (four keys; the
`favTeams` and `acceptTerms` fields are absent from it). -/
def demoInit : List (String × FieldVal) :=
  [("fullName", FieldVal.str ""), ("email", FieldVal.str ""),
   ("phone", FieldVal.str ""), ("password", FieldVal.str "")]

/-- A payload satisfying every schema rule. -/
def validPayload : Payload :=
  ⟨some "John Smith", some "john@example.com", some "555-123-4567",
   some "Passw0rd!", some ["arsenal"], some true⟩

/-- A payload whose only violation is the missing `email` field. -/
def missingEmail : Payload :=
  ⟨some "John Smith", none, some "555-123-4567",
   some "Passw0rd!", some ["arsenal"], some true⟩

/-! ## Helper lemmas -/

theorem allBlank_initErrorsOf {α : Type} (init : List (String × α)) :
    allBlank (initErrorsOf init) := by
  intro p hp
  simp only [initErrorsOf, List.mem_map] at hp
  obtain ⟨q, -, rfl⟩ := hp
  rfl

theorem nonBlankKeys_cons_blank (a : String) (m : List (String × String)) :
    nonBlankKeys ((a, "") :: m) = nonBlankKeys m := by
  simp [nonBlankKeys, List.filter_cons]

theorem nonBlankKeys_cons (a v : String) (m : List (String × String))
    (hv : v ≠ "") : nonBlankKeys ((a, v) :: m) = a :: nonBlankKeys m := by
  simp [nonBlankKeys, List.filter_cons, hv]

theorem nonBlankKeys_of_allBlank (m : List (String × String)) (h : allBlank m) :
    nonBlankKeys m = [] := by
  induction m with
  | nil => rfl
  | cons q rest ih =>
    obtain ⟨k₀, v₀⟩ := q
    have hq : v₀ = "" := h (k₀, v₀) (List.mem_cons_self _ rest)
    have hrest : allBlank rest := fun p hp => h p (List.mem_cons_of_mem _ hp)
    subst hq
    rw [nonBlankKeys_cons_blank]
    exact ih hrest

theorem nonBlankKeys_setKey (m : List (String × String)) (k v : String)
    (hm : allBlank m) (hv : v ≠ "") : nonBlankKeys (setKey m k v) = [k] := by
  induction m with
  | nil =>
    show nonBlankKeys [(k, v)] = [k]
    rw [nonBlankKeys_cons k v [] hv]
    rfl
  | cons q rest ih =>
    obtain ⟨k₀, v₀⟩ := q
    have hq : v₀ = "" := hm (k₀, v₀) (List.mem_cons_self _ rest)
    have hrest : allBlank rest := fun p hp => hm p (List.mem_cons_of_mem _ hp)
    subst hq
    by_cases hk : k₀ = k
    · subst hk
      show nonBlankKeys (if k₀ = k₀ then (k₀, v) :: rest else
        (k₀, "") :: setKey rest k₀ v) = [k₀]
      rw [if_pos rfl, nonBlankKeys_cons k₀ v rest hv,
        nonBlankKeys_of_allBlank rest hrest]
    · show nonBlankKeys (if k₀ = k then (k₀, v) :: rest else
        (k₀, "") :: setKey rest k v) = [k]
      rw [if_neg hk, nonBlankKeys_cons_blank]
      exact ih hrest

theorem getVal_setKey (m : List (String × String)) (k v : String) :
    getVal (setKey m k v) k = some v := by
  induction m with
  | nil => simp [setKey, getVal]
  | cons q rest ih =>
    by_cases hk : q.1 = k
    · cases q with
      | mk k₀ v₀ => simp only at hk; subst hk; simp [setKey, getVal]
    · cases q with
      | mk k₀ v₀ => simp only at hk; simp [setKey, hk, getVal, ih]

theorem eltErrors_mess (i : Nat) (l : List String) :
    ∀ e ∈ eltErrors i l, e.mess = "Invalid team selected" := by
  induction l generalizing i with
  | nil => intro e he; simp [eltErrors] at he
  | cons x xs ih =>
    intro e he
    by_cases hc : teams.contains x
    · simp only [eltErrors, hc, if_pos, List.nil_append] at he
      exact ih (i + 1) e he
    · simp only [eltErrors, hc, if_neg, Bool.false_eq_true, not_false_iff,
        List.singleton_append, List.mem_cons] at he
      rcases he with rfl | he
      · rfl
      · exact ih (i + 1) e he

theorem eltErrors_eq_nil (i : Nat) (l : List String) :
    eltErrors i l = [] ↔ ∀ x ∈ l, x ∈ teams := by
  induction l generalizing i with
  | nil => simp [eltErrors]
  | cons x xs ih =>
    by_cases hc : teams.contains x
    · have hx : x ∈ teams := by
        have := List.elem_iff.mp hc
        exact this
      simp [eltErrors, hc, ih (i + 1), hx]
    · have hx : x ∉ teams := fun hmem => hc (List.elem_iff.mpr hmem)
      simp [eltErrors, hc, hx]

theorem fullNameErrors_mess (o : Option String) :
    ∀ e ∈ fullNameErrors o, e.mess ≠ "" := by
  intro e he
  cases o with
  | none =>
    simp only [fullNameErrors, List.mem_singleton] at he
    subst he; decide
  | some s =>
    simp only [fullNameErrors, List.mem_append] at he
    rcases he with (he | he) | he <;> (split_ifs at he <;>
      simp only [List.mem_singleton, List.not_mem_nil] at he) <;>
      (subst he; decide)

theorem emailErrors_mess (o : Option String) :
    ∀ e ∈ emailErrors o, e.mess ≠ "" := by
  intro e he
  cases o with
  | none =>
    simp only [emailErrors, List.mem_singleton] at he
    subst he; decide
  | some s =>
    simp only [emailErrors, List.mem_append] at he
    rcases he with he | he <;> (split_ifs at he <;>
      simp only [List.mem_singleton, List.not_mem_nil] at he) <;>
      (subst he; decide)

theorem phoneErrors_mess (o : Option String) :
    ∀ e ∈ phoneErrors o, e.mess ≠ "" := by
  intro e he
  cases o with
  | none =>
    simp only [phoneErrors, List.mem_singleton] at he
    subst he; decide
  | some s =>
    simp only [phoneErrors, List.mem_append] at he
    rcases he with he | he <;> (split_ifs at he <;>
      simp only [List.mem_singleton, List.not_mem_nil] at he) <;>
      (subst he; decide)

theorem passwordErrors_mess (o : Option String) :
    ∀ e ∈ passwordErrors o, e.mess ≠ "" := by
  intro e he
  cases o with
  | none =>
    simp only [passwordErrors, List.mem_singleton] at he
    subst he; decide
  | some s =>
    simp only [passwordErrors, List.mem_append] at he
    rcases he with he | he <;> (split_ifs at he <;>
      simp only [List.mem_singleton, List.not_mem_nil] at he) <;>
      (subst he; decide)

theorem favTeamsErrors_mess (o : Option (List String)) :
    ∀ e ∈ favTeamsErrors o, e.mess ≠ "" := by
  intro e he
  cases o with
  | none =>
    simp only [favTeamsErrors, List.mem_singleton] at he
    subst he; decide
  | some l =>
    simp only [favTeamsErrors, List.mem_append] at he
    rcases he with (he | he) | he
    · split_ifs at he <;> simp only [List.mem_singleton, List.not_mem_nil] at he
      subst he; decide
    · split_ifs at he <;> simp only [List.mem_singleton, List.not_mem_nil] at he
      subst he; decide
    · rw [eltErrors_mess 0 l e he]; decide

theorem acceptTermsErrors_mess (o : Option Bool) :
    ∀ e ∈ acceptTermsErrors o, e.mess ≠ "" := by
  intro e he
  cases o with
  | none =>
    simp only [acceptTermsErrors, List.mem_singleton] at he
    subst he; decide
  | some b =>
    cases b with
    | true => simp [acceptTermsErrors] at he
    | false =>
      simp only [acceptTermsErrors, Bool.false_eq_true, if_false,
        List.mem_singleton] at he
      subst he; decide

theorem schemaInner_mess (p : Payload) : ∀ e ∈ schemaInner p, e.mess ≠ "" := by
  intro e he
  simp only [schemaInner, List.mem_append] at he
  rcases he with ((((he | he) | he) | he) | he) | he
  · exact fullNameErrors_mess p.fullName e he
  · exact emailErrors_mess p.email e he
  · exact phoneErrors_mess p.phone e he
  · exact passwordErrors_mess p.password e he
  · exact favTeamsErrors_mess p.favTeams e he
  · exact acceptTermsErrors_mess p.acceptTerms e he

theorem listBeginsWith_append (b c : List Char) :
    listBeginsWith (b ++ c) b = true := by
  induction b with
  | nil => cases c <;> rfl
  | cons x xs ih => simp [listBeginsWith, ih]

theorem listHasSub_append_left (a rest needle : List Char)
    (h : listHasSub rest needle = true) :
    listHasSub (a ++ rest) needle = true := by
  induction a with
  | nil => simpa using h
  | cons x xs ih => simp [listHasSub, ih]

theorem listHasSub_self_append (b c : List Char) :
    listHasSub (b ++ c) b = true := by
  cases b with
  | nil =>
    cases c with
    | nil => rfl
    | cons y ys => simp [listHasSub, listBeginsWith]
  | cons x xs =>
    show (listBeginsWith (x :: xs ++ c) (x :: xs) || _) = true
    rw [listBeginsWith_append (x :: xs) c]
    rfl

theorem strHasSub_stringifyErr (f m : String) :
    strHasSub (stringifyErr f m) f = true := by
  have h₁ : (stringifyErr f m).toList =
      ("\x7b\"errField\":\"").toList ++
        (f.toList ++ (("\"," ++ "\"errMess\":" ++ jsonStr m ++ "\x7d").toList)) := by
    simp [stringifyErr, jsonStr, String.toList]
  rw [strHasSub, h₁]
  exact listHasSub_append_left _ _ _ (listHasSub_self_append f.toList _)

theorem keysOf_setKey_mem {α : Type} (m : List (String × α)) (k : String)
    (v : α) (hk : k ∈ keysOf m) : keysOf (setKey m k v) = keysOf m := by
  induction m with
  | nil => simp [keysOf] at hk
  | cons q rest ih =>
    obtain ⟨k₀, v₀⟩ := q
    by_cases h : k₀ = k
    · subst h; simp [setKey, keysOf]
    · have hk₂ : k ∈ keysOf rest := by
        simp only [keysOf, List.map_cons, List.mem_cons] at hk
        rcases hk with rfl | hk
        · exact absurd rfl h
        · exact hk
      have ih₂ := ih hk₂
      show keysOf (if k₀ = k then (k₀, v) :: rest else
        (k₀, v₀) :: setKey rest k v) = keysOf ((k₀, v₀) :: rest)
      rw [if_neg h]
      show k₀ :: keysOf (setKey rest k v) = k₀ :: keysOf rest
      rw [ih₂]

theorem applyChanges_keysOf (changes : List (String × String)) :
    ∀ s : HookState, (∀ c ∈ changes, c.1 ∈ keysOf s.formData) →
    keysOf (applyChanges s changes).formData = keysOf s.formData := by
  induction changes with
  | nil => intro s _; rfl
  | cons c rest ih =>
    intro s h
    obtain ⟨n, v⟩ := c
    have hn : n ∈ keysOf s.formData := h (n, v) (List.mem_cons_self _ rest)
    have hstep : keysOf (handleInputChange s n v).formData = keysOf s.formData :=
      keysOf_setKey_mem s.formData n (FieldVal.str v) hn
    have hrest : ∀ c ∈ rest, c.1 ∈ keysOf (handleInputChange s n v).formData := by
      intro c hc
      rw [hstep]
      exact h c (List.mem_cons_of_mem _ hc)
    calc keysOf (applyChanges (handleInputChange s n v) rest).formData
        = keysOf (handleInputChange s n v).formData := ih _ hrest
      _ = keysOf s.formData := hstep

/-- A concrete heap holding one form-data object at every address. -/
def demoHeap : Heap := fun _ => [("fullName", FieldVal.str "Jay")]

/-! ## Claim theorems -/

/-- C1: for every initial field set and every form payload, `validateForm`
returns `true` and leaves the errors object all-blank when the schema
reports no violation; when the schema reports violations it returns
`false`, stores the first-reported violation's non-empty message under the
first-reported violating path, and leaves every other entry blank. -/
theorem validateForm_spec (init : List (String × FieldVal)) (p : Payload) :
    allBlank (initErrorsOf init) ∧
    (schemaInner p = [] →
      validateForm (initErrorsOf init) p = (true, initErrorsOf init)) ∧
    (∀ e, (schemaInner p).head? = some e →
      (validateForm (initErrorsOf init) p).1 = false ∧
      e.mess ≠ "" ∧
      getVal (validateForm (initErrorsOf init) p).2 e.path = some e.mess ∧
      nonBlankKeys (validateForm (initErrorsOf init) p).2 = [e.path]) := by
  refine ⟨allBlank_initErrorsOf init, ?_, ?_⟩
  · intro h
    unfold validateForm
    rw [h]
  · intro e he
    cases hs : schemaInner p with
    | nil => rw [hs] at he; simp at he
    | cons e₀ es =>
      rw [hs] at he
      simp only [List.head?_cons, Option.some.injEq] at he
      subst he
      have hmem : e₀ ∈ schemaInner p := by
        rw [hs]; exact List.mem_cons_self _ _
      have hmess : e₀.mess ≠ "" := schemaInner_mess p e₀ hmem
      unfold validateForm
      rw [hs]
      exact ⟨rfl, hmess, getVal_setKey _ _ _,
        nonBlankKeys_setKey _ _ _ (allBlank_initErrorsOf init) hmess⟩

/-- Witness for C1: on the demo's initial field set, the fully valid
payload validates to `true` with blank errors, and the empty payload
fails with exactly the `fullName` entry set. -/
theorem validateForm_spec_witness :
    validateForm (initErrorsOf demoInit) validPayload =
      (true, initErrorsOf demoInit) ∧
    ((validateForm (initErrorsOf demoInit) emptyPayload).1 = false ∧
      ("Full Name is a required field" : String) ≠ "" ∧
      getVal (validateForm (initErrorsOf demoInit) emptyPayload).2 "fullName" =
        some "Full Name is a required field" ∧
      nonBlankKeys (validateForm (initErrorsOf demoInit) emptyPayload).2 =
        ["fullName"]) :=
  ⟨(validateForm_spec demoInit validPayload).2.1 (by decide),
   (validateForm_spec demoInit emptyPayload).2.2
     ⟨"fullName", "Full Name is a required field"⟩ (by decide)⟩

/-- C2: for every payload, the handler with no fault answers 200 with the
serialized payload (the unmodified echo) when the schema reports no
violation, and 500 with the JSON-encoded
`\x7b errField, errMess \x7d` string — which contains the violating field's
path — when it reports violations. -/
theorem handler_spec (p : Payload) :
    (schemaInner p = [] →
      handler ⟨Except.ok p, none⟩ = some ⟨200, stringifyPayload p⟩) ∧
    (∀ e, (schemaInner p).head? = some e →
      handler ⟨Except.ok p, none⟩ =
        some ⟨500, stringifyErr e.path e.mess⟩ ∧
      strHasSub (stringifyErr e.path e.mess) e.path = true) := by
  have hred : handler ⟨Except.ok p, none⟩ =
      match schemaInner p with
      | [] => some ⟨200, stringifyPayload p⟩
      | e :: _ => outerCatch (Thrown.errObj (stringifyErr e.path e.mess)) :=
    rfl
  constructor
  · intro h
    rw [hred, h]
  · intro e he
    cases hs : schemaInner p with
    | nil => rw [hs] at he; simp at he
    | cons e₀ es =>
      rw [hs] at he
      simp only [List.head?_cons, Option.some.injEq] at he
      subst he
      refine ⟨?_, strHasSub_stringifyErr _ _⟩
      rw [hred, hs]
      rfl

/-- Witness for C2: the valid payload is echoed with 200; the payload
missing only `email` is refused with 500 and a body mentioning
`email`. -/
theorem handler_spec_witness :
    handler ⟨Except.ok validPayload, none⟩ =
      some ⟨200, stringifyPayload validPayload⟩ ∧
    (handler ⟨Except.ok missingEmail, none⟩ =
      some ⟨500, stringifyErr "email" "Email Address is a required field"⟩ ∧
     strHasSub (stringifyErr "email" "Email Address is a required field")
       "email" = true) :=
  ⟨(handler_spec validPayload).1 (by decide),
   (handler_spec missingEmail).2
     ⟨"email", "Email Address is a required field"⟩ (by decide)⟩

/-- Counterexample for C3: when the schema check throws a
non-`ValidationError` (here an `Error` with message `schema fault`), the
inner catch swallows it and the handler answers with the success status
200 and the echo — not with a failure status. -/
theorem handler_schemaFault_success :
    handler ⟨Except.ok emptyPayload, some (Thrown.errObj "schema fault")⟩ =
      some ⟨200, stringifyPayload emptyPayload⟩ := rfl

/-- C3 (amended): malformed JSON — whose parse throws an `Error` — routes
to the 500 failure outcome carrying the thrown message, but a
non-`ValidationError` thrown by the schema check is swallowed by the inner
catch and the handler answers 200 with the echo. -/
theorem handler_fault_routing (m : String) (f : Option Thrown) (p : Payload)
    (t : Thrown) :
    handler ⟨Except.error (Thrown.errObj m), f⟩ = some ⟨500, m⟩ ∧
    handler ⟨Except.ok p, some t⟩ = some ⟨200, stringifyPayload p⟩ :=
  ⟨rfl, rfl⟩

/-- Counterexample for C4: an unexpected internal error thrown by the
schema check does not propagate out of `validateForm`; the catch-all
swallows it and the call returns normally with `false` and the reset
errors object. -/
theorem validateFormE_swallows_fault :
    validateFormE (some (Thrown.errObj "schema misconfigured"))
      (initErrorsOf demoInit) emptyPayload =
      Except.ok (false, initErrorsOf demoInit) := rfl

/-- C4 (amended): `validateForm` never throws at all — ordinary validation
failures are reported via the returned boolean, and an unexpected internal
error during the schema check is also caught, the call returning `false`
with the errors object left at its reset (all-blank) value. -/
theorem validateForm_no_throw (fault : Option Thrown)
    (initErrs : List (String × String)) (p : Payload) :
    (∃ r, validateFormE fault initErrs p = Except.ok r) ∧
    validateFormE none initErrs p = Except.ok (validateForm initErrs p) ∧
    (∀ t, fault = some t →
      validateFormE fault initErrs p = Except.ok (false, initErrs)) := by
  refine ⟨?_, rfl, ?_⟩
  · cases fault with
    | none => exact ⟨validateForm initErrs p, rfl⟩
    | some t => exact ⟨(false, initErrs), rfl⟩
  · intro t ht
    subst ht
    rfl

/-- Witness for C4 (amended): a concrete fault is caught and reported as a
normal `false` return. -/
theorem validateForm_no_throw_witness :
    validateFormE (some Thrown.nonError) (initErrorsOf demoInit)
      emptyPayload = Except.ok (false, initErrorsOf demoInit) :=
  (validateForm_no_throw (some Thrown.nonError) (initErrorsOf demoInit)
    emptyPayload).2.2 Thrown.nonError rfl

/-- Counterexample for C5: mutating the object `getFormData` returns does
change the controller's form state — the returned value is the live
reference, not a snapshot. -/
theorem getFormData_not_snapshot :
    ctrlFormData (heapWrite demoHeap (getFormData ⟨0⟩)
      [("fullName", FieldVal.str "mutated")]) ⟨0⟩ ≠
    ctrlFormData demoHeap ⟨0⟩ := by decide

/-- C5 (amended): `getFormData` returns the reference held in the
`formData` cell, so a caller writing through that reference overwrites the
controller's current form state. -/
theorem getFormData_live_reference (h : Heap) (s : CtrlState)
    (v : List (String × FieldVal)) :
    getFormData s = s.fdAddr ∧
    ctrlFormData (heapWrite h (getFormData s) v) s = v := by
  refine ⟨rfl, ?_⟩
  simp [ctrlFormData, heapWrite, getFormData]

/-- Counterexample for C6: one `handleInputChange` call whose `name` is
not a key of the initial form data silently creates a new key, so the key
set grows past the initial key set. -/
theorem handleInputChange_creates_key :
    "favTeams" ∈ keysOf (applyChanges (initHookState demoInit)
      [("favTeams", "arsenal")]).formData ∧
    "favTeams" ∉ keysOf (initHookState demoInit).formData := by decide

/-- C6 (amended): the key set of the form state is preserved by every
sequence of `handleInputChange` calls whose field names are all keys of
the initial form data; a call with a fresh name instead appends that
name as a new key. -/
theorem keySet_preserved (init : List (String × FieldVal))
    (changes : List (String × String))
    (h : ∀ c ∈ changes, c.1 ∈ keysOf init) :
    keysOf (applyChanges (initHookState init) changes).formData =
      keysOf init :=
  applyChanges_keysOf changes (initHookState init) h

/-- Witness for C6 (amended): two in-key-set changes leave the demo's key
set unchanged. -/
theorem keySet_preserved_witness :
    keysOf (applyChanges (initHookState demoInit)
      [("fullName", "Jay"), ("email", "jay@example.com")]).formData =
      keysOf demoInit :=
  keySet_preserved demoInit [("fullName", "Jay"), ("email", "jay@example.com")]
    (by decide)

/-- C7: for every initial field set, `resetForm` after any sequence of
change-handler calls restores the hook state exactly to the initial form
data with all-blank errors, and `resetForm` is idempotent. -/
theorem resetForm_spec (init : List (String × FieldVal))
    (changes : List (String × String)) (s : HookState) :
    resetForm init (applyChanges (initHookState init) changes) =
      initHookState init ∧
    (resetForm init s).formData = init ∧
    allBlank (resetForm init s).errors ∧
    resetForm init (resetForm init s) = resetForm init s :=
  ⟨rfl, rfl, allBlank_initErrorsOf init, rfl⟩

/-- C8: on the empty payload, the first violation the schema reports is
the one for `fullName` — the schema's first declared field — and
`validateForm` surfaces exactly that entry. -/
theorem firstViolation_order :
    (schemaInner emptyPayload).head? =
      some ⟨"fullName", "Full Name is a required field"⟩ ∧
    (validateForm (initErrorsOf demoInit) emptyPayload).1 = false ∧
    nonBlankKeys (validateForm (initErrorsOf demoInit) emptyPayload).2 =
      ["fullName"] := by decide

/-- C9: the `favTeams` rule rejects arrays of length 0 or of length at
least 4, accepts every array of 1 to 3 values drawn from the enumerated
team set, and rejects any array containing a value outside that set,
regardless of its length. -/
theorem favTeams_rule_spec (l : List String) :
    ((l.length = 0 ∨ 4 ≤ l.length) → favTeamsErrors (some l) ≠ []) ∧
    (1 ≤ l.length → l.length ≤ 3 → (∀ x ∈ l, x ∈ teams) →
      favTeamsErrors (some l) = []) ∧
    ((∃ x ∈ l, x ∉ teams) → favTeamsErrors (some l) ≠ []) := by
  refine ⟨?_, ?_, ?_⟩
  · rintro (h0 | h4)
    · have hl : l = [] := List.length_eq_zero.mp h0
      subst hl
      decide
    · intro hc
      have h3 : 3 < l.length := by omega
      simp [favTeamsErrors, h3] at hc
  · intro h1 h3 hall
    have hmin : ¬ l.length < 1 := by omega
    have hmax : ¬ 3 < l.length := by omega
    simp [favTeamsErrors, hmin, hmax, (eltErrors_eq_nil 0 l).mpr hall]
  · rintro ⟨x, hx, hnx⟩ hc
    simp only [favTeamsErrors, List.append_eq_nil] at hc
    exact hnx ((eltErrors_eq_nil 0 l).mp hc.2 x hx)

/-- Witness for C9: a one-element in-set array is accepted; an array with
an out-of-set value is rejected; the empty array is rejected. -/
theorem favTeams_rule_spec_witness :
    favTeamsErrors (some ["arsenal"]) = [] ∧
    favTeamsErrors (some ["tottenham"]) ≠ [] ∧
    favTeamsErrors (some ([] : List String)) ≠ [] :=
  ⟨(favTeams_rule_spec ["arsenal"]).2.1 (by decide) (by decide) (by decide),
   (favTeams_rule_spec ["tottenham"]).2.2 ⟨"tottenham", by decide, by decide⟩,
   (favTeams_rule_spec []).1 (Or.inl rfl)⟩

/-- C10: when the value thrown inside the handler's outer try block is not
an `Error` instance, the `instanceof` guard of the outer catch fails and
the handler returns no response at all (`undefined`). -/
theorem handler_nonError_undefined (f : Option Thrown) :
    handler ⟨Except.error Thrown.nonError, f⟩ = none ∧
    outerCatch Thrown.nonError = none :=
  ⟨rfl, rfl⟩

end NextHookForm
